import Mathlib

/-!
Verification of the query-time RAG pipeline and the token-window chunker of
`project-orgvitality-ai`, shallowly embedded from `src/rag/rag_pipeline.py`
and `src/core/ingestion.py`.

External collaborators (the OpenAI chat client, the cross-encoder scoring
model, the tiktoken tokenizer, the vector store) are modelled as explicit
inputs: the embedded functions take their observable outputs as parameters,
exactly where the Python code receives them.
-/

/-! ## Retrieval records (`rag_pipeline.py`, `RagPipeline.retrieve`) -/

/-- One retrieval result, as built in `RagPipeline.retrieve`
(rag_pipeline.py line 81): `{"text": doc, "metadata": meta, "query": q}`.
The metadata dict is opaque to every stage modelled here, so it is kept as
an abstract string. -/
structure Retrieved where
  text : String
  metadata : String
  query : String
deriving DecidableEq, Repr

/-! ## Deduplication (`rag_pipeline.py` line 130)

`unique_chunks = list({chunk["text"]: chunk for chunk in retrieved}.values())`

A Python dict comprehension assigns `d[chunk["text"]] = chunk` for each
element in list order; a key keeps its first-insertion position but its
value is overwritten by later assignments, and `.values()` lists values in
key-insertion order.  We represent the dict as its insertion-ordered value
list. -/

/-- One assignment `d[c.text] = c` of the dict comprehension: an existing
key keeps its position but takes the new value; a new key is appended. -/
def dedupStep (acc : List Retrieved) (c : Retrieved) : List Retrieved :=
  if acc.any (fun r => r.text == c.text) then
    acc.map (fun r => if r.text == c.text then c else r)
  else
    acc ++ [c]

/-- `list({chunk["text"]: chunk for chunk in retrieved}.values())`
(rag_pipeline.py line 130). -/
def dedup (retrieved : List Retrieved) : List Retrieved :=
  retrieved.foldl dedupStep []

/-- Specification-side helper: record a text key if it has not been seen. -/
def addKey (ks : List String) (t : String) : List String :=
  if ks.any (fun k => k == t) then ks else ks ++ [t]

/-- Specification-side helper: the distinct text keys of a retrieval list in
first-occurrence order (the key order of the Python dict). -/
def firstKeys (xs : List Retrieved) : List String :=
  xs.foldl (fun ks c => addKey ks c.text) []

/-! ## Chunker (`ingestion.py`, `DocumentIngestor`) -/

/-- `DocumentIngestor` configuration, set by `__init__`
(ingestion.py lines 40-43).  The tiktoken encoder handle is external. -/
structure DocumentIngestor where
  chunk_size : Nat
  overlap : Nat
deriving DecidableEq, Repr

/-- `DocumentIngestor.__init__(chunk_size=500, overlap=75)`
(ingestion.py lines 40-43).  A Python constructor may raise, so the
embedding returns `Except`; the body of `__init__` only stores the two
numbers and performs no validation, so it always succeeds. -/
def DocumentIngestor.init (chunk_size : Nat) (overlap : Nat) :
    Except String DocumentIngestor :=
  .ok ⟨chunk_size, overlap⟩

/-- Python `range(0, stop, step)` with integer `step` (ingestion.py
line 125): raises `ValueError` when `step = 0`; for negative `step` the
count-down from `0` stops at once (every `stop ≥ 0` fails `0 > stop`), so
the range is empty; for positive `step` it yields
`0, step, 2*step, …` while below `stop`, i.e. `⌈stop/step⌉` values. -/
def pyRange0 (stop : Nat) (step : Int) : Except String (List Nat) :=
  if step = 0 then .error "ValueError: range() arg 3 must not be zero"
  else if step < 0 then .ok []
  else .ok ((List.range ((stop + step.toNat - 1) / step.toNat)).map (fun k => k * step.toNat))

/-- One produced chunk: the recorded `start_token` offset and the token
window `tokens[i : i + chunk_size]`.  The stored `text` is
`encoder.decode(window)`; the decoder is external, so the window is kept
as tokens. -/
structure TokenChunk where
  start_token : Nat
  window : List Nat
deriving DecidableEq, Repr

/-- The chunking loop of `_pages_to_batch` for one page (ingestion.py
lines 124-137), applied to the page's token list `tokens`:

    for i in range(0, len(tokens), self.chunk_size - self.overlap):
        window = tokens[i : i + self.chunk_size]
-/
def chunkPage (ing : DocumentIngestor) (tokens : List Nat) :
    Except String (List TokenChunk) :=
  (pyRange0 tokens.length ((ing.chunk_size : Int) - (ing.overlap : Int))).map
    (fun starts => starts.map (fun i => ⟨i, (tokens.drop i).take ing.chunk_size⟩))

/-- `_pages_to_batch` (ingestion.py lines 119-138) restricted to its
chunking effect: pages arrive already tokenized (`encoder.encode` is
external) and the uuid-derived ids and page-location labels carry no
information the verified properties mention.  Chunks accumulate across
pages in page order; a `ValueError` raised on some page aborts the run. -/
def pagesToBatch (ing : DocumentIngestor) (pages : List (List Nat)) :
    Except String (List TokenChunk) :=
  pages.foldlM (fun acc p => (chunkPage ing p).map (fun cs => acc ++ cs)) []

/-! ## Helper instances and lemmas -/

deriving instance DecidableEq for Except

/-- With `overlap > chunk_size` the loop step is negative, so the Python
range is empty and a page yields no chunks at all. -/
theorem chunkPage_overlap_gt (W O : Nat) (h : W < O) (p : List Nat) :
    chunkPage ⟨W, O⟩ p = .ok [] := by
  unfold chunkPage pyRange0
  have h1 : ¬ ((W : Int) - (O : Int) = 0) := by omega
  have h2 : (W : Int) - (O : Int) < 0 := by omega
  rw [if_neg h1, if_pos h2]
  rfl

/-- With `overlap = chunk_size` the loop step is zero and `range` raises
`ValueError` on every page, empty or not. -/
theorem chunkPage_overlap_eq (W : Nat) (p : List Nat) :
    chunkPage ⟨W, W⟩ p = .error "ValueError: range() arg 3 must not be zero" := by
  unfold chunkPage pyRange0
  have h1 : (W : Int) - (W : Int) = 0 := by omega
  rw [if_pos h1]
  rfl

theorem pagesToBatch_overlap_gt (W O : Nat) (h : W < O) (pages : List (List Nat)) :
    pagesToBatch ⟨W, O⟩ pages = .ok [] := by
  suffices H : ∀ (ps : List (List Nat)) (acc : List TokenChunk),
      ps.foldlM (fun acc p => (chunkPage ⟨W, O⟩ p).map (fun cs => acc ++ cs)) acc
        = .ok acc from H pages []
  intro ps
  induction ps with
  | nil => intro acc; rfl
  | cons p ps ih =>
    intro acc
    rw [List.foldlM_cons, chunkPage_overlap_gt W O h p]
    show (Except.ok (acc ++ []) >>= fun b =>
      ps.foldlM (fun acc p => (chunkPage ⟨W, O⟩ p).map (fun cs => acc ++ cs)) b) = .ok acc
    rw [List.append_nil]
    exact ih acc

/-- C1.  The claim is false as stated: `DocumentIngestor.__init__` performs
no validation, so an `O ≥ W` configuration is accepted at construction.
This closed instance exhibits it at `W = O = 500` (construction succeeds)
and at `W = 500, O = 600` (a whole chunking run over a 10-token page
completes without any error, producing zero chunks, i.e. the invalid
configuration is neither rejected at construction nor at processing time). -/
theorem c1_counterexample :
    DocumentIngestor.init 500 500 = .ok ⟨500, 500⟩
    ∧ pagesToBatch ⟨500, 600⟩ [List.range 10] = .ok [] := by
  exact ⟨rfl, pagesToBatch_overlap_gt 500 600 (by omega) _⟩

/-- C1 (amended).  Construction always succeeds, for every window size and
overlap: no configuration is rejected.  When `O > W` every chunking run
silently succeeds with zero chunks; when `O = W` a chunking run with at
least one page fails at processing time with `range`'s `ValueError`
(not a `ConfigError`, and not before processing begins). -/
theorem c1_no_construction_validation (W O : Nat) (pages : List (List Nat)) :
    (DocumentIngestor.init W O).isOk = true
    ∧ (W < O → pagesToBatch ⟨W, O⟩ pages = .ok [])
    ∧ (O = W → pages ≠ [] → (pagesToBatch ⟨W, O⟩ pages).isOk = false) := by
  refine ⟨rfl, fun h => pagesToBatch_overlap_gt W O h pages, fun hOW hne => ?_⟩
  subst hOW
  obtain ⟨p, ps, rfl⟩ := List.exists_cons_of_ne_nil hne
  unfold pagesToBatch
  rw [List.foldlM_cons, chunkPage_overlap_eq O p]
  rfl

/-- Witness for C1 (amended) at `W = 500`: `O = 600` runs to `ok []`,
`O = 500` fails at processing time. -/
theorem c1_no_construction_validation_witness :
    (DocumentIngestor.init 500 600).isOk = true
    ∧ pagesToBatch ⟨500, 600⟩ [List.range 10] = .ok []
    ∧ (pagesToBatch ⟨500, 500⟩ [List.range 10]).isOk = false := by
  refine ⟨(c1_no_construction_validation 500 600 [List.range 10]).1,
    (c1_no_construction_validation 500 600 [List.range 10]).2.1 (by omega),
    (c1_no_construction_validation 500 500 [List.range 10]).2.2 rfl (by decide)⟩

/-- C5 (amended).  Full characterization of the chunking loop for a valid
configuration `O < W`: the emitted windows start at `0, W−O, 2(W−O), …`
(`⌈len/(W−O)⌉` of them) and the window starting at `i` is the slice
`tokens[i : i+W]`.  Hence consecutive windows overlap by
`min(O, len − next start)` tokens — exactly `O` only when at least `O`
tokens remain at the later start — and every window in the tail of a page
shorter than its start plus `W` is shorter than `W`, not only the final
one.  There is no padding. -/
theorem c5_sliding_window (W O : Nat) (hO : O < W) (tokens : List Nat) :
    chunkPage ⟨W, O⟩ tokens =
      .ok ((List.range ((tokens.length + (W - O) - 1) / (W - O))).map
        (fun k => ⟨k * (W - O), (tokens.drop (k * (W - O))).take W⟩)) := by
  unfold chunkPage pyRange0
  have h1 : ¬ ((W : Int) - (O : Int) = 0) := by omega
  have h2 : ¬ ((W : Int) - (O : Int) < 0) := by omega
  rw [if_neg h1, if_neg h2]
  have h3 : ((W : Int) - (O : Int)).toNat = W - O := by omega
  rw [h3]
  simp only [Except.map, List.map_map]
  rfl

set_option maxRecDepth 40000 in
/-- C5.  The claim is false as stated: on a 430-token page with
`W = 500, O = 75` the loop emits windows at starts `0` and `425`; the
window at `0` is *not* the final one yet has only 430 < 500 tokens, and
the two windows share only the 5 token positions `425..429`, not `O = 75`.
(The second window is even entirely contained in the first.) -/
theorem c5_counterexample :
    (chunkPage ⟨500, 75⟩ (List.range 430)).map
        (List.map (fun c => (c.start_token, c.window.length)))
      = .ok [(0, 430), (425, 5)] := by
  decide

set_option maxRecDepth 100000 in
/-- Witness for C5 (amended): the spec's own scenario.  A 1200-token page
with `W = 500, O = 75` yields exactly 3 windows with start offsets
`0, 425, 850` and lengths `500, 500, 350`. -/
theorem c5_sliding_window_witness :
    75 < 500
    ∧ (chunkPage ⟨500, 75⟩ (List.range 1200)).map
        (List.map (fun c => (c.start_token, c.window.length)))
      = .ok [(0, 500), (425, 500), (850, 350)] := by
  refine ⟨by omega, ?_⟩
  rw [c5_sliding_window 500 75 (by omega) (List.range 1200)]
  decide

/-! ## Deduplication lemmas (claims C2 and C8) -/

/-- One dict assignment in terms of text keys: replacing the value under an
existing key leaves the key list unchanged; a new key is appended. -/
theorem dedupStep_map_text (acc : List Retrieved) (c : Retrieved) :
    (dedupStep acc c).map (fun r => r.text) = addKey (acc.map (fun r => r.text)) c.text := by
  unfold dedupStep addKey
  have hany : (acc.map (fun r => r.text)).any (fun k => k == c.text)
      = acc.any (fun r => r.text == c.text) := by
    induction acc with
    | nil => rfl
    | cons a as ih => simp only [List.map_cons, List.any_cons, ih]
  rw [hany]
  by_cases h : acc.any (fun r => r.text == c.text)
  · rw [if_pos h, if_pos h, List.map_map]
    apply List.map_congr_left
    intro r _
    by_cases hr : (r.text == c.text) = true
    · simp only [Function.comp_apply, if_pos hr]
      exact (eq_of_beq hr).symm
    · simp only [Function.comp_apply, if_neg hr]
  · rw [if_neg h, if_neg h, List.map_append]
    rfl

theorem foldl_dedupStep_map_text (xs : List Retrieved) :
    ∀ acc : List Retrieved, (xs.foldl dedupStep acc).map (fun r => r.text)
      = xs.foldl (fun ks c => addKey ks c.text) (acc.map (fun r => r.text)) := by
  induction xs with
  | nil => intro acc; rfl
  | cons x xs ih =>
    intro acc
    rw [List.foldl_cons, List.foldl_cons, ih, dedupStep_map_text]

/-- The texts of the deduplicated list are exactly the distinct input texts
in first-occurrence order. -/
theorem dedup_map_text (xs : List Retrieved) :
    (dedup xs).map (fun r => r.text) = firstKeys xs := by
  have h := foldl_dedupStep_map_text xs []
  simpa [dedup, firstKeys] using h

theorem foldl_addKey_nodup (xs : List Retrieved) :
    ∀ ks : List String, ks.Nodup → (xs.foldl (fun ks c => addKey ks c.text) ks).Nodup := by
  induction xs with
  | nil => intro ks h; exact h
  | cons x xs ih =>
    intro ks h
    rw [List.foldl_cons]
    apply ih
    unfold addKey
    by_cases hx : ks.any (fun k => k == x.text)
    · rw [if_pos hx]; exact h
    · rw [if_neg hx]
      have hnot : x.text ∉ ks := by
        intro hmem
        exact hx (List.any_eq_true.mpr ⟨x.text, hmem, by simp⟩)
      rw [List.nodup_append]
      exact ⟨h, List.nodup_singleton _, fun a ha hb => by
        simp only [List.mem_singleton] at hb
        subst hb
        exact hnot ha⟩

/-- The deduplicated list has pairwise-distinct texts. -/
theorem dedup_text_nodup (xs : List Retrieved) :
    ((dedup xs).map (fun r => r.text)).Nodup := by
  rw [dedup_map_text]
  exact foldl_addKey_nodup xs [] List.nodup_nil

/-- Running the dict comprehension over a list whose texts are already
pairwise distinct only appends: every assignment hits a fresh key. -/
theorem foldl_dedupStep_of_nodup (xs : List Retrieved) :
    ∀ acc : List Retrieved, (((acc ++ xs).map (fun r => r.text)).Nodup) →
      xs.foldl dedupStep acc = acc ++ xs := by
  induction xs with
  | nil => intro acc _; simp
  | cons x xs ih =>
    intro acc h
    have hx : x.text ∉ acc.map (fun r => r.text) := by
      simp only [List.map_append, List.map_cons] at h
      have hdisj := (List.nodup_append.mp h).2.2
      intro hmem
      exact hdisj hmem (List.mem_cons_self _ _)
    have hstep : dedupStep acc x = acc ++ [x] := by
      unfold dedupStep
      have hany : acc.any (fun r => r.text == x.text) = false := by
        rw [List.any_eq_false]
        intro r hr hbeq
        exact hx (eq_of_beq hbeq ▸ List.mem_map_of_mem (fun r => r.text) hr)
      simp [hany]
    rw [List.foldl_cons, hstep]
    have h' : (((acc ++ [x]) ++ xs).map (fun r => r.text)).Nodup := by
      have : (acc ++ [x]) ++ xs = acc ++ x :: xs := by simp
      rw [this]
      exact h
    rw [ih (acc ++ [x]) h']
    simp

/-- C8.  Deduplication is idempotent: the deduplicated list has pairwise
distinct texts, so running the keyed merge again assigns each element to a
fresh key and returns the list unchanged.  (`dedup` is a plain function of
its input list — purity is by construction of the embedding, mirroring
that line 130 of rag_pipeline.py reads nothing but `retrieved`.) -/
theorem c8_dedup_idempotent (xs : List Retrieved) :
    dedup (dedup xs) = dedup xs := by
  have h : ((([] : List Retrieved) ++ dedup xs).map (fun r => r.text)).Nodup := by
    simpa using dedup_text_nodup xs
  have := foldl_dedupStep_of_nodup (dedup xs) [] h
  simpa [dedup] using this

/-- Every element surviving the keyed merge is either an untouched
accumulator entry whose key never occurs in the input, or the *last*
occurrence of its text in the input (later assignments overwrite earlier
ones under the same key). -/
theorem mem_foldl_dedupStep (xs : List Retrieved) :
    ∀ (acc : List Retrieved) (r : Retrieved), r ∈ xs.foldl dedupStep acc →
      (r ∈ acc ∧ ∀ c ∈ xs, (c.text == r.text) = false)
      ∨ (xs.filter (fun c => c.text == r.text)).getLast? = some r := by
  induction xs with
  | nil =>
    intro acc r h
    exact .inl ⟨h, by simp⟩
  | cons x xs ih =>
    intro acc r h
    rw [List.foldl_cons] at h
    rcases ih (dedupStep acc x) r h with ⟨hmem, hnone⟩ | hlast
    · unfold dedupStep at hmem
      by_cases hx : acc.any (fun s => s.text == x.text)
      · rw [if_pos hx] at hmem
        obtain ⟨s, hs, hse⟩ := List.mem_map.mp hmem
        by_cases hst : (s.text == x.text) = true
        · rw [if_pos hst] at hse
          subst hse
          right
          have hfx : (x.text == x.text) = true := by simp
          simp only [List.filter_cons, hfx, if_pos]
          have hxs : xs.filter (fun c => c.text == x.text) = [] := by
            rw [List.filter_eq_nil_iff]
            intro c hc
            simp [hnone c hc]
          rw [hxs]
          rfl
        · rw [if_neg hst] at hse
          subst hse
          left
          refine ⟨hs, fun c hc => ?_⟩
          rcases List.mem_cons.mp hc with hcx | hcs
          · subst hcx
            cases hb : (c.text == s.text) with
            | false => rfl
            | true =>
              have hsx : (s.text == c.text) = true := by rw [eq_of_beq hb]; simp
              exact absurd hsx hst
          · exact hnone c hcs
      · rw [if_neg hx] at hmem
        rcases List.mem_append.mp hmem with hracc | hrx
        · left
          refine ⟨hracc, fun c hc => ?_⟩
          rcases List.mem_cons.mp hc with rfl | hcs
          · have hrx : (r.text == c.text) = false := by
              rcases hb : (r.text == c.text) with _ | _
              · rfl
              · exact absurd (List.any_eq_true.mpr ⟨r, hracc, hb⟩) hx
            rcases hb : (c.text == r.text) with _ | _
            · rfl
            · rw [eq_of_beq hb] at hrx
              simp at hrx
          · exact hnone c hcs
        · simp only [List.mem_singleton] at hrx
          subst hrx
          right
          have hfx : (r.text == r.text) = true := by simp
          simp only [List.filter_cons, hfx, if_pos]
          have hxs : xs.filter (fun c => c.text == r.text) = [] := by
            rw [List.filter_eq_nil_iff]
            intro c hc
            simp [hnone c hc]
          rw [hxs]
          rfl
    · right
      by_cases hx : (x.text == r.text) = true
      · have hne : xs.filter (fun c => c.text == r.text) ≠ [] := by
          intro he
          rw [he] at hlast
          cases hlast
        obtain ⟨y, l, hyl⟩ := List.exists_cons_of_ne_nil hne
        simp only [List.filter_cons, hx, if_pos]
        rw [hyl, List.getLast?_cons_cons, ← hyl]
        exact hlast
      · simp only [List.filter_cons, hx]
        simpa using hlast

/-- C2.  The claim is false as stated: for two retrieval items with the
same text `"a"` but different metadata and subquery tags, deduplication
keeps the *second* (last-encountered) item, not the first. -/
theorem c2_counterexample :
    dedup [⟨"a", "m1", "q1"⟩, ⟨"a", "m2", "q2"⟩] = [⟨"a", "m2", "q2"⟩]
    ∧ (⟨"a", "m2", "q2"⟩ : Retrieved) ≠ ⟨"a", "m1", "q1"⟩ := by
  decide

/-- C2 (amended).  Deduplication merges the flat retrieval list keyed by
exact text content; the output lists one item per distinct text in
first-occurrence order of the texts, but the retained item for each text
(with its metadata and originating-subquery tag) is the *last* occurrence
encountered in the input, not the first. -/
theorem c2_dedup_first_key_order_last_value (xs : List Retrieved) :
    (dedup xs).map (fun r => r.text) = firstKeys xs
    ∧ ∀ r ∈ dedup xs, (xs.filter (fun c => c.text == r.text)).getLast? = some r := by
  refine ⟨dedup_map_text xs, fun r hr => ?_⟩
  rcases mem_foldl_dedupStep xs [] r hr with ⟨hmem, _⟩ | hlast
  · exact absurd hmem (List.not_mem_nil r)
  · exact hlast

/-- Witness for C2 (amended) on `[⟨"a","m1","q1"⟩, ⟨"b","m","q"⟩, ⟨"a","m2","q2"⟩]`:
keys come out in first-occurrence order `["a", "b"]`, and the item kept for
`"a"` is the last occurrence `⟨"a","m2","q2"⟩`. -/
theorem c2_dedup_first_key_order_last_value_witness :
    (dedup [⟨"a", "m1", "q1"⟩, ⟨"b", "m", "q"⟩, ⟨"a", "m2", "q2"⟩]).map (fun r => r.text)
      = ["a", "b"]
    ∧ (([⟨"a", "m1", "q1"⟩, ⟨"b", "m", "q"⟩, ⟨"a", "m2", "q2"⟩] : List Retrieved).filter
        (fun c => c.text == "a")).getLast? = some ⟨"a", "m2", "q2"⟩ := by
  constructor
  · rw [(c2_dedup_first_key_order_last_value
      [⟨"a", "m1", "q1"⟩, ⟨"b", "m", "q"⟩, ⟨"a", "m2", "q2"⟩]).1]
    decide
  · exact (c2_dedup_first_key_order_last_value
      [⟨"a", "m1", "q1"⟩, ⟨"b", "m", "q"⟩, ⟨"a", "m2", "q2"⟩]).2
      ⟨"a", "m2", "q2"⟩ (by decide)

/-! ## Query expansion (`rag_pipeline.py`, `RagPipeline.expand_query`,
lines 61-72)

The OpenAI chat call and `json.loads` are external; the embedding takes
their joint observable outcome as input.  The `try` block catches exactly
`json.JSONDecodeError` and `openai.APIError`; a successful `json.loads`
returns whatever was parsed, with no emptiness or shape check. -/

/-- Outcome of the upstream call + parse inside `expand_query`'s `try`:
either the chat call raised `openai.APIError`, or `json.loads` raised
`JSONDecodeError` on the returned content, or it parsed a list of
subqueries (possibly empty — `json.loads("[]")` succeeds). -/
inductive ExpandOutcome where
  | apiError (msg : String)
  | jsonDecodeError (msg : String)
  | parsed (subqueries : List String)
deriving DecidableEq, Repr

/-- `RagPipeline.expand_query` (rag_pipeline.py lines 61-72): returns the
parsed value unchanged on success, `[user_query]` on either caught
exception. -/
def expand_query (user_query : String) (outcome : ExpandOutcome) : List String :=
  match outcome with
  | .apiError _ => [user_query]
  | .jsonDecodeError _ => [user_query]
  | .parsed subqueries => subqueries

/-- C3.  The claim is false as stated: when the model answers with the
valid JSON text `"[]"`, `json.loads` succeeds with the empty list, no
exception is raised, and `expand_query` returns `[]` — an empty subquery
list that does not contain the original query.  (The fallback covers only
parse failure and API error, not an empty parsed result.) -/
theorem c3_counterexample :
    expand_query "how do I reset my password" (.parsed []) = []
    ∧ ¬ ("how do I reset my password"
          ∈ expand_query "how do I reset my password" (.parsed [])) := by
  exact ⟨rfl, by simp [expand_query]⟩

/-- C3 (amended).  On `json.JSONDecodeError` or `openai.APIError` the
method returns exactly `[user_query]` and raises nothing; on a successful
parse it returns the parsed list unchanged, even when that list is empty
or does not contain the original query.  So the result is guaranteed
non-empty and to contain the query only on the two fallback paths. -/
theorem c3_expand_fallback (user_query msg msg' : String) :
    expand_query user_query (.apiError msg) = [user_query]
    ∧ expand_query user_query (.jsonDecodeError msg') = [user_query]
    ∧ ∀ subqueries : List String,
        expand_query user_query (.parsed subqueries) = subqueries :=
  ⟨rfl, rfl, fun _ => rfl⟩

/-! ## Answer generation (`rag_pipeline.py`, `generate_answer` lines
98-107 and `generate_answer_stream` lines 109-120)

The two methods build their prompts with identical code; the OpenAI chat
backend is external and is passed in as a function of the two prompt
strings.  `user_prompt_template.format(query_text=…, context=…)` comes
from an external YAML file, so the template is passed as a function
`tmpl : query → context → prompt` shared by both methods (both read the
same `self.prompts["answer_generation"]` entry). -/

/-- A context chunk as consumed by `format_chunk_for_context`: its text,
the optional `metadata["source"]` entry, and the optional
`metadata.get("source_detail")` entry. -/
structure CtxChunk where
  text : String
  source : Option String
  source_detail : Option String
deriving DecidableEq, Repr

/-- The local helper `format_chunk_for_context` defined identically inside
both methods (lines 100-103 and 111-114).  Python's
`if chunk.get('metadata', {}).get("source_detail"):` is a truthiness
test, so an empty-string detail is skipped. -/
def format_chunk_for_context (chunk : CtxChunk) : String :=
  let label_parts := match chunk.source with
    | some s => ["Source: " ++ s]
    | none => []
  let label_parts := match chunk.source_detail with
    | some sd => if sd = "" then label_parts else label_parts ++ [sd]
    | none => label_parts
  "[" ++ String.intercalate ", " label_parts ++ "]\n" ++ chunk.text

/-- The user prompt built by `generate_answer` (lines 104-105). -/
def generate_answer_user_prompt (tmpl : String → String → String)
    (user_query : String) (context_chunks : List CtxChunk) : String :=
  tmpl user_query
    (String.intercalate "\n\n" (context_chunks.map format_chunk_for_context))

/-- The user prompt built by `generate_answer_stream` (lines 115-116),
embedded separately because the source duplicates the code. -/
def generate_answer_stream_user_prompt (tmpl : String → String → String)
    (user_query : String) (context_chunks : List CtxChunk) : String :=
  tmpl user_query
    (String.intercalate "\n\n" (context_chunks.map format_chunk_for_context))

/-- Python `str.strip()` with no argument: remove leading and trailing
whitespace (modelled for the ASCII whitespace Lean's `Char.isWhitespace`
recognizes). -/
def pyStrip (s : String) : String :=
  ⟨((s.data.dropWhile Char.isWhitespace).reverse.dropWhile Char.isWhitespace).reverse⟩

/-- `RagPipeline.generate_answer` (lines 98-107): one complete response
whose content is stripped — `response.choices[0].message.content.strip()`.
`complete sys user` is the external model's full response text for the
given system and user prompts. -/
def generate_answer (complete : String → String → String) (sys_prompt : String)
    (tmpl : String → String → String) (user_query : String)
    (context_chunks : List CtxChunk) : String :=
  pyStrip (complete sys_prompt
    (generate_answer_user_prompt tmpl user_query context_chunks))

/-- `RagPipeline.generate_answer_stream` (lines 109-120): the stream's
deltas (`none` models a chunk whose `delta.content` is `None`), filtered by
the walrus-truthiness test `if content := chunk.choices[0].delta.content:`
which also drops empty-string deltas, and yielded unchanged. -/
def generate_answer_stream (stream : String → String → List (Option String))
    (sys_prompt : String) (tmpl : String → String → String)
    (user_query : String) (context_chunks : List CtxChunk) : List String :=
  (stream sys_prompt
      (generate_answer_stream_user_prompt tmpl user_query context_chunks)).filterMap
    (fun delta => match delta with
      | some c => if c = "" then none else some c
      | none => none)

theorem string_join_foldl (l : List String) :
    ∀ a : String, l.foldl (fun r s => r ++ s) a = a ++ String.join l := by
  induction l with
  | nil => intro a; exact (String.append_empty a).symm
  | cons c l ih =>
    intro a
    show l.foldl (fun r s => r ++ s) (a ++ c) = a ++ String.join (c :: l)
    rw [ih (a ++ c)]
    have : String.join (c :: l) = c ++ String.join l := by
      show l.foldl (fun r s => r ++ s) ("" ++ c) = c ++ String.join l
      rw [ih ("" ++ c), String.empty_append]
    rw [this, String.append_assoc]

/-- Dropping the falsy (`None` or empty-string) deltas does not change the
concatenation of a stream. -/
theorem join_filterMap_drop_empty (ds : List (Option String)) :
    String.join (ds.filterMap (fun delta => match delta with
        | some c => if c = "" then none else some c
        | none => none))
      = String.join (ds.filterMap id) := by
  induction ds with
  | nil => rfl
  | cons d ds ih =>
    cases d with
    | none => simpa using ih
    | some c =>
      by_cases hc : c = ""
      · subst hc
        have h1 : ((some "" :: ds).filterMap (fun delta => match delta with
            | some c => if c = "" then none else some c
            | none => none)) = ds.filterMap (fun delta => match delta with
            | some c => if c = "" then none else some c
            | none => none) := by
          simp [List.filterMap_cons]
        have h2 : ((some "" :: ds).filterMap id) = "" :: ds.filterMap id := by
          simp [List.filterMap_cons]
        rw [h1, h2, ih]
        show String.join (ds.filterMap id)
          = (ds.filterMap id).foldl (fun r s => r ++ s) ("" ++ "")
        rw [string_join_foldl, String.empty_append, String.empty_append]
      · have h1 : ((some c :: ds).filterMap (fun delta => match delta with
            | some c => if c = "" then none else some c
            | none => none)) = c :: ds.filterMap (fun delta => match delta with
            | some c => if c = "" then none else some c
            | none => none) := by
          simp [List.filterMap_cons, hc]
        have h2 : ((some c :: ds).filterMap id) = c :: ds.filterMap id := by
          simp [List.filterMap_cons]
        rw [h1, h2]
        show (List.filterMap _ ds).foldl (fun r s => r ++ s) ("" ++ c)
          = (ds.filterMap id).foldl (fun r s => r ++ s) ("" ++ c)
        rw [string_join_foldl, string_join_foldl, ih]

/-- C4.  The claim is false as stated: the complete mode strips the model
text (`.strip()`), the streaming mode yields the deltas unchanged, so on a
deterministic backend whose text carries leading or trailing whitespace
the concatenated stream differs from the complete-mode answer.  Closed
instance: backend text `" hi "` — stream concatenates to `" hi "`,
complete mode returns `"hi"`. -/
theorem c4_counterexample :
    String.join (generate_answer_stream (fun _ _ => [some " hi "]) "s"
        (fun q c => q ++ c) "q" []) = " hi "
    ∧ generate_answer (fun _ _ => " hi ") "s" (fun q c => q ++ c) "q" [] = "hi"
    ∧ (" hi " : String) ≠ "hi" := by
  refine ⟨by decide, by decide, by decide⟩

/-- C4 (amended).  The two modes build identical user prompts (and receive
the same fixed system prompt), so on a deterministic backend returning the
same text they agree *up to whitespace stripping*: the complete mode
returns `strip(raw)` while the streaming mode's concatenated increments
equal `raw` itself. -/
theorem c4_stream_equals_complete_up_to_strip (sys_prompt : String)
    (tmpl : String → String → String) (user_query : String)
    (context_chunks : List CtxChunk) (raw : String) (ds : List (Option String))
    (hdet : String.join (ds.filterMap id) = raw) :
    generate_answer_user_prompt tmpl user_query context_chunks
        = generate_answer_stream_user_prompt tmpl user_query context_chunks
    ∧ generate_answer (fun _ _ => raw) sys_prompt tmpl user_query context_chunks
        = pyStrip raw
    ∧ String.join (generate_answer_stream (fun _ _ => ds) sys_prompt tmpl
        user_query context_chunks) = raw := by
  refine ⟨rfl, rfl, ?_⟩
  rw [generate_answer_stream, join_filterMap_drop_empty]
  exact hdet

/-- Witness for C4 (amended): backend text `" hi "` delivered complete and
as deltas `[some " hi ", none, some ""]` — complete mode gives `"hi"`,
stream concatenation gives `" hi "`. -/
theorem c4_stream_equals_complete_up_to_strip_witness :
    generate_answer (fun _ _ => " hi ") "s" (fun q c => q ++ c) "q" [] = "hi"
    ∧ String.join (generate_answer_stream (fun _ _ => [some " hi ", none, some ""])
        "s" (fun q c => q ++ c) "q" []) = " hi " := by
  have h := c4_stream_equals_complete_up_to_strip "s" (fun q c => q ++ c) "q" []
    " hi " [some " hi ", none, some ""] (by decide)
  exact ⟨h.2.1.trans (by decide), h.2.2⟩

/-! ## Reranker state and `rerank` (`rag_pipeline.py` lines 25-50 and
84-96)

`RagPipeline.__init__` stores `use_reranker`, the reranker model name and
`self.cross_encoder = None`; `_load_reranker` sets `cross_encoder` on
demand.  `loadCount` is a ghost counter of `CrossEncoder` constructions,
so "the model was never loaded" is expressible as state equality. -/

structure RagState where
  use_reranker : Bool
  reranker_model_name : String
  cross_encoder : Option String
  loadCount : Nat
deriving DecidableEq, Repr

/-- `RagPipeline._load_reranker` (lines 43-50), as its sequential effect:
`if self.use_reranker and self.cross_encoder is None:` construct the model
(ghost-counted) and store the handle; otherwise do nothing. -/
def load_reranker (st : RagState) : RagState :=
  if st.use_reranker && st.cross_encoder.isNone then
    { st with cross_encoder := some st.reranker_model_name,
              loadCount := st.loadCount + 1 }
  else st

/-- The sort step of `rerank` (lines 94-95):
`sorted(scored_chunks, key=lambda x: x[1], reverse=True)` over
`scored_chunks = list(zip(retrieved_chunks, scores))`.  Python's `sorted`
is a stable sort and, like `zip`, truncates to the shorter input; it is
embedded as the stable `List.mergeSort` with the ≥-by-score comparator,
which agrees extensionally with every stable sort on the same key. -/
def rerankScored (retrieved_chunks : List Retrieved) (scores : List Int) :
    List (Retrieved × Int) :=
  List.mergeSort (retrieved_chunks.zip scores) (fun a b => decide (b.2 ≤ a.2))

/-- `RagPipeline.rerank` (lines 84-96).  The empty-input early return at
lines 86-87 precedes `await self._load_reranker()` (line 89); the
cross-encoder's float scores are external and passed in aligned with the
chunks (`scores = cross_encoder.predict(pairs)`), kept as integers since
only their ordering matters to the code. -/
def rerank (st : RagState) (user_query : String)
    (retrieved_chunks : List Retrieved) (scores : List Int)
    (top_n : Nat) : List Retrieved × RagState :=
  if retrieved_chunks.isEmpty then ([], st)
  else
    (((rerankScored retrieved_chunks scores).take top_n).map Prod.fst,
      load_reranker st)

/-- `RagPipeline._get_full_pipeline_response` (lines 122-143):
dedup, then rerank with `TOP_N_FINAL_CHUNKS = 6` if `use_reranker`, else
the first-6 fallback.  The upstream `expand_query`/`retrieve` network
stages are external; the function receives the flat retrieval list. -/
def getFullPipelineResponse (st : RagState) (user_query : String)
    (retrieved : List Retrieved) (scores : List Int) :
    List Retrieved × RagState :=
  let unique_chunks := dedup retrieved
  if st.use_reranker then
    rerank st user_query unique_chunks scores 6
  else
    (unique_chunks.take 6, st)

theorem scoreLE_trans : ∀ a b c : Retrieved × Int,
    decide (b.2 ≤ a.2) = true → decide (c.2 ≤ b.2) = true →
    decide (c.2 ≤ a.2) = true := by
  intro a b c h1 h2
  simp only [decide_eq_true_eq] at *
  omega

theorem scoreLE_total : ∀ a b : Retrieved × Int,
    (decide (b.2 ≤ a.2) || decide (a.2 ≤ b.2)) = true := by
  intro a b
  rcases Int.le_total a.2 b.2 with h | h <;> simp [h]

theorem list_pairwise_of_forall_mem {α : Type} {R : α → α → Prop} :
    ∀ l : List α, (∀ a ∈ l, ∀ b ∈ l, R a b) → l.Pairwise R := by
  intro l
  induction l with
  | nil => intro _; exact .nil
  | cons x xs ih =>
    intro h
    exact .cons
      (fun b hb => h x (List.mem_cons_self x xs) b (List.mem_cons_of_mem x hb))
      (ih fun a ha b hb =>
        h a (List.mem_cons_of_mem x ha) b (List.mem_cons_of_mem x hb))

/-- C6.  `rerank` returns at most `top_n` chunks; on nonempty input it is
the score-sorted, truncated, stable permutation of the scored input: the
retained score sequence is non-increasing, and for every score value the
subsequence of input items carrying that score is preserved in its
original (pre-rerank) order — ties are broken by original position, so
the operation is deterministic given the scores. -/
theorem c6_rerank_sorted_stable_truncated (st : RagState) (user_query : String)
    (retrieved_chunks : List Retrieved) (scores : List Int) (top_n : Nat) :
    (rerank st user_query retrieved_chunks scores top_n).1.length ≤ top_n
    ∧ (rerank st user_query retrieved_chunks scores top_n).1
        = (if retrieved_chunks.isEmpty then []
           else ((rerankScored retrieved_chunks scores).take top_n).map Prod.fst)
    ∧ (((rerankScored retrieved_chunks scores).take top_n).map Prod.snd).Pairwise
        (fun a b => b ≤ a)
    ∧ ∀ v : Int,
        (rerankScored retrieved_chunks scores).filter (fun p => decide (p.2 = v))
          = (retrieved_chunks.zip scores).filter (fun p => decide (p.2 = v)) := by
  have hout : (rerank st user_query retrieved_chunks scores top_n).1
      = (if retrieved_chunks.isEmpty then []
         else ((rerankScored retrieved_chunks scores).take top_n).map Prod.fst) := by
    by_cases he : retrieved_chunks.isEmpty <;> simp [rerank, he]
  refine ⟨?_, hout, ?_, ?_⟩
  · rw [hout]
    by_cases he : retrieved_chunks.isEmpty
    · simp [he]
    · simp [he, List.length_take]
  · have hs := @List.sorted_mergeSort (Retrieved × Int)
      (fun a b : Retrieved × Int => decide (b.2 ≤ a.2))
      scoreLE_trans scoreLE_total (retrieved_chunks.zip scores)
    have hs2 := List.Pairwise.sublist
      (List.take_sublist top_n (rerankScored retrieved_chunks scores))
      (by exact hs)
    rw [List.pairwise_map]
    exact hs2.imp (fun h => of_decide_eq_true h)
  · intro v
    have hval : ∀ x ∈ (retrieved_chunks.zip scores).filter
        (fun q => decide (q.2 = v)), x.2 = v := by
      intro x hx
      have hx' := List.of_mem_filter hx
      exact of_decide_eq_true hx'
    have hC : ((retrieved_chunks.zip scores).filter
        (fun q => decide (q.2 = v))).Pairwise
        (fun a b : Retrieved × Int => decide (b.2 ≤ a.2) = true) := by
      apply list_pairwise_of_forall_mem
      intro a ha b hb
      have h1 := hval a ha
      have h2 := hval b hb
      exact decide_eq_true (by rw [h1, h2])
    have hCsort : List.Sublist
        ((retrieved_chunks.zip scores).filter (fun q => decide (q.2 = v)))
        (List.mergeSort (retrieved_chunks.zip scores) (fun a b => decide (b.2 ≤ a.2))) :=
      List.sublist_mergeSort scoreLE_trans scoreLE_total hC
        (List.filter_sublist (retrieved_chunks.zip scores))
    have hperm : List.Perm
        ((List.mergeSort (retrieved_chunks.zip scores)
            (fun a b => decide (b.2 ≤ a.2))).filter (fun q => decide (q.2 = v)))
        ((retrieved_chunks.zip scores).filter (fun q => decide (q.2 = v))) :=
      (List.mergeSort_perm (retrieved_chunks.zip scores)
        (fun a b => decide (b.2 ≤ a.2))).filter (fun q => decide (q.2 = v))
    have hsub2 : List.Sublist
        ((retrieved_chunks.zip scores).filter (fun q => decide (q.2 = v)))
        ((List.mergeSort (retrieved_chunks.zip scores)
            (fun a b => decide (b.2 ≤ a.2))).filter (fun q => decide (q.2 = v))) := by
      have h := List.Sublist.filter (fun q : Retrieved × Int => decide (q.2 = v)) hCsort
      have hself : ((retrieved_chunks.zip scores).filter
            (fun q => decide (q.2 = v))).filter (fun q => decide (q.2 = v))
          = (retrieved_chunks.zip scores).filter (fun q => decide (q.2 = v)) := by
        apply List.filter_eq_self.mpr
        intro a ha
        exact (List.mem_filter.mp ha).2
      rwa [hself] at h
    exact (List.Sublist.eq_of_length hsub2 hperm.length_eq.symm).symm

/-- C7.  With the reranker disabled by configuration, the selection stage
returns exactly the first 6 items of the deduplicated list in unchanged
order, and the pipeline state — in particular the `cross_encoder` handle
and the ghost load counter — is untouched: the reranker model is neither
loaded nor invoked on this path. -/
theorem c7_first_n_policy (st : RagState) (user_query : String)
    (retrieved : List Retrieved) (scores : List Int)
    (h : st.use_reranker = false) :
    getFullPipelineResponse st user_query retrieved scores
      = ((dedup retrieved).take 6, st) := by
  simp [getFullPipelineResponse, h]

/-- Witness for C7 on seven distinct retrieved texts with a fresh disabled
pipeline: the first six come back unchanged and the state is untouched. -/
theorem c7_first_n_policy_witness :
    getFullPipelineResponse
        ⟨false, "cross-encoder/ms-marco-MiniLM-L-6-v2", none, 0⟩ "q"
        [⟨"t1", "m", "q"⟩, ⟨"t2", "m", "q"⟩, ⟨"t3", "m", "q"⟩, ⟨"t4", "m", "q"⟩,
         ⟨"t5", "m", "q"⟩, ⟨"t6", "m", "q"⟩, ⟨"t7", "m", "q"⟩] []
      = ([⟨"t1", "m", "q"⟩, ⟨"t2", "m", "q"⟩, ⟨"t3", "m", "q"⟩, ⟨"t4", "m", "q"⟩,
          ⟨"t5", "m", "q"⟩, ⟨"t6", "m", "q"⟩],
         ⟨false, "cross-encoder/ms-marco-MiniLM-L-6-v2", none, 0⟩) := by
  rw [c7_first_n_policy _ _ _ _ rfl]
  decide

/-- C10.  `rerank` on an empty chunk list returns `([], st)` with the
state unchanged for *every* state — in particular when `use_reranker` is
true and `cross_encoder` is still `None` — because the early return at
lines 86-87 precedes the `await self._load_reranker()` call: no load is
attempted and the lazy-load state is untouched. -/
theorem c10_rerank_empty_no_load (st : RagState) (user_query : String)
    (scores : List Int) (top_n : Nat) :
    rerank st user_query [] scores top_n = ([], st) := rfl

/-! ## Concurrent first use of `_load_reranker` (claim C9)

`_load_reranker` runs under asyncio's cooperative scheduler: a coroutine
runs uninterrupted between `await` points.  Its body has exactly one
suspension point — `self.cross_encoder = await asyncio.to_thread(CrossEncoder, …)`
suspends after the `None` check and before the assignment.  Two concurrent
callers are therefore modelled as two tasks with two atomic segments each:

* `start`: evaluate `if self.use_reranker and self.cross_encoder is None`;
  when true, begin a `CrossEncoder` construction (counted in the ghost
  field `loads`) and suspend, else finish;
* `awaitingLoad`: resume after the construction, perform the assignment,
  finish.

A schedule is the interleaving order chosen by the event loop. -/

inductive LoadPc where
  | start
  | awaitingLoad
  | done
deriving DecidableEq, Repr

structure LoadMachine where
  use_reranker : Bool
  cross_encoder : Bool
  pc0 : LoadPc
  pc1 : LoadPc
  loads : Nat
deriving DecidableEq, Repr

/-- Run one atomic segment of task `t` (`false` = task 0, `true` = task 1)
of `_load_reranker` (rag_pipeline.py lines 43-50). -/
def loadStep (s : LoadMachine) (t : Bool) : LoadMachine :=
  match (if t then s.pc1 else s.pc0) with
  | .start =>
      if s.use_reranker && !s.cross_encoder then
        if t then { s with pc1 := .awaitingLoad, loads := s.loads + 1 }
        else { s with pc0 := .awaitingLoad, loads := s.loads + 1 }
      else
        if t then { s with pc1 := .done } else { s with pc0 := .done }
  | .awaitingLoad =>
      if t then { s with pc1 := .done, cross_encoder := true }
      else { s with pc0 := .done, cross_encoder := true }
  | .done => s

def loadRun (sched : List Bool) (s : LoadMachine) : LoadMachine :=
  sched.foldl loadStep s

/-- Both tasks about to make their first call, reranking enabled, model
not yet loaded, no constructions so far. -/
def loadInit : LoadMachine := ⟨true, false, .start, .start, 0⟩

/-- C9.  The single-flight part of the claim is false: `_load_reranker`
has no lock, so under the schedule `check₀, check₁, assign₀, assign₁` both
tasks pass the `cross_encoder is None` check before either assignment and
each constructs the model — two loads, not at most one. -/
theorem c9_counterexample :
    (loadRun [false, true, false, true] loadInit).loads = 2
    ∧ ¬ ((loadRun [false, true, false, true] loadInit).loads ≤ 1) := by
  decide

/-- C9 (amended).  Once the handle is set no schedule performs any further
construction (so strictly sequential use loads at most once, on first
actual use — the serialized schedule from the fresh state performs exactly
one load and sets the handle); but concurrent first use is not
single-flight: the raced schedule performs two loads.  (Nothing marks the
reranker unusable on failure — the body has no exception handling at
all.) -/
theorem c9_lazy_load_not_single_flight :
    (∀ (sched : List Bool) (s : LoadMachine), s.cross_encoder = true →
      (loadRun sched s).loads = s.loads)
    ∧ (loadRun [false, false, true] loadInit).loads = 1
    ∧ (loadRun [false, false, true] loadInit).cross_encoder = true
    ∧ (loadRun [false, true, false, true] loadInit).loads = 2 := by
  refine ⟨?_, by decide, by decide, by decide⟩
  intro sched
  induction sched with
  | nil => intro s h; rfl
  | cons t sched ih =>
    intro s h
    show (loadRun sched (loadStep s t)).loads = s.loads
    have hstep : loadStep s t = (if t then { s with pc1 := .done }
        else { s with pc0 := .done }) ∨ loadStep s t = s := by
      unfold loadStep
      rcases hpc : (if t then s.pc1 else s.pc0) with _ | _ | _
      · left
        rw [h]
        simp
      · left
        rcases t with _ | _ <;> simp_all
      · right
        rfl
    have hce : (loadStep s t).cross_encoder = true ∧ (loadStep s t).loads = s.loads := by
      rcases hstep with hs | hs <;> rw [hs] <;> rcases t with _ | _ <;> simp [h]
    rw [ih (loadStep s t) hce.1, hce.2]

/-- Witness for C9 (amended): from an already-loaded state, the raced
schedule performs no construction. -/
theorem c9_lazy_load_not_single_flight_witness :
    (loadRun [false, true, false, true] ⟨true, true, .start, .start, 5⟩).loads = 5 :=
  c9_lazy_load_not_single_flight.1 [false, true, false, true]
    ⟨true, true, .start, .start, 5⟩ rfl
